import Mathlib

/-!
Verification of the WikiTalk context-retrieval and answer-orchestration engine.

The definitions below are a shallow embedding of the Python source files
`wikitalk/retrieval.py`, `wikitalk/orchestrator.py`, `wikitalk/db.py`,
`wikitalk/llm.py` and `wikitalk/wiki.py`.  Python strings are modelled as
`List Char` (ASCII behaviour of `str.lower`, `str.strip`, `\s` and friends),
Python floats as real numbers, the SQLite store as a record of lookup
functions, and the network collaborators (article source, language model,
external search) as oracle functions supplied in an environment record.
-/

namespace WikiTalk

/-- Python strings are modelled as lists of characters. -/
abbrev Str := List Char

/-- Whitespace characters recognised by Python's `\s`, `str.split()` and
`str.strip()` (ASCII range). -/
def isPySpace (c : Char) : Bool :=
  c == ' ' || c == '\t' || c == '\n' || c == '\r' || c == '\x0b' || c == '\x0c'

/-- Drop trailing characters satisfying `p` (helper for right-strip). -/
def dropTrailing (p : Char → Bool) (s : Str) : Str :=
  (s.reverse.dropWhile p).reverse

/-- Python `str.lstrip()`. -/
def pyLstrip (s : Str) : Str := s.dropWhile isPySpace

/-- Python `str.rstrip()`. -/
def pyRstrip (s : Str) : Str := dropTrailing isPySpace s

/-- Python `str.strip()`. -/
def pyStrip (s : Str) : Str := pyRstrip (pyLstrip s)

/-- Split on a single separator character, keeping empty pieces
(Python `str.split(sep)` for a one-character separator). -/
def splitOnCharAux (sep : Char) : Str → Str → List Str
  | acc, [] => [acc.reverse]
  | acc, c :: cs =>
    if c = sep then acc.reverse :: splitOnCharAux sep [] cs
    else splitOnCharAux sep (c :: acc) cs

/-- Python `str.splitlines()` for texts whose only line separator is `'\n'`:
split on newlines and drop the one trailing empty piece produced by a
trailing newline. -/
def pySplitlines (s : Str) : List Str :=
  if s = [] then []
  else
    let parts := splitOnCharAux '\n' [] s
    if parts.getLast? = some [] then parts.dropLast else parts

/-- Left-to-right scan splitting on non-overlapping occurrences of `"\n\n"`
(Python `str.split("\n\n")`). -/
def splitNlNlAux : Str → Str → List Str
  | acc, [] => [acc.reverse]
  | acc, [c] => [(c :: acc).reverse]
  | acc, c :: d :: rest =>
    if c = '\n' ∧ d = '\n' then acc.reverse :: splitNlNlAux [] rest
    else splitNlNlAux (c :: acc) (d :: rest)

/-- Python `text.split("\n\n")`. -/
def pySplitNlNl (s : Str) : List Str := splitNlNlAux [] s

/-- Python `sep.join(xs)`. -/
def joinSep (sep : Str) : List Str → Str
  | [] => []
  | [x] => x
  | x :: xs => x ++ sep ++ joinSep sep xs

/-- Python `str.split()` with no argument: split on whitespace runs and
drop empty pieces. -/
def pyWordsAux : Str → Str → List Str
  | acc, [] => if acc = [] then [] else [acc.reverse]
  | acc, c :: cs =>
    if isPySpace c then
      if acc = [] then pyWordsAux [] cs else acc.reverse :: pyWordsAux [] cs
    else pyWordsAux (c :: acc) cs

/-- Python `str.split()` with no argument. -/
def pyWords (s : Str) : List Str := pyWordsAux [] s

/-- Matching of the MediaWiki heading regex `^\s*=+\s*(.*?)\s*=+\s*$` from
`split_into_chunks`, returning the captured group when the line matches.
The regex engine takes the maximal leading `=`-run (backtracking one `=`
when the remainder holds no further `=`), the maximal following
whitespace run, and the shortest lazy group such that the rest of the
line is whitespace, one or more `=`, then trailing whitespace. -/
def headingMatch (line : Str) : Option Str :=
  let r := line.dropWhile isPySpace
  let m := (r.takeWhile (· == '=')).length
  if m = 0 then none
  else
    let rest := r.drop m
    let restR := dropTrailing isPySpace rest
    if restR ≠ [] ∧ restR.getLast? = some '=' then
      let r2 := rest.dropWhile isPySpace
      let g1 := dropTrailing (· == '=') (dropTrailing isPySpace r2)
      some (dropTrailing isPySpace g1)
    else if restR = [] ∧ 2 ≤ m then some []
    else none

/-- The `Chunk` dataclass of `retrieval.py`.  The Python field `section`
is a reserved word in Lean and is rendered as `sectionName`. -/
structure Chunk where
  sectionName : Str
  text : Str
  start_line : Int
  end_line : Int
deriving DecidableEq, Repr, Inhabited

/-- The sentinel section for text before the first heading. -/
def introductionSection : Str := "Introduction".toList

/-- The default section name when the heading captures an empty name. -/
def defaultSection : Str := "Section".toList

/-- The `flush` closure of `split_into_chunks`: join the buffered lines,
strip, and append a chunk when non-empty. -/
def flushChunk (sec : Str) (buf : List Str) (s e : Int) (chunks : List Chunk) :
    List Chunk :=
  if buf ≠ [] then
    let text := pyStrip (joinSep ['\n'] buf)
    if text ≠ [] then chunks ++ [⟨sec, text, s, e⟩] else chunks
  else chunks

/-- First pass of `split_into_chunks`: scan lines, cutting a provisional
per-section chunk at each heading line.  `i` is the index of the next
line, mirroring the Python `enumerate` counter. -/
def splitPass1 : Nat → List Str → Str → List Str → Int → List Chunk → List Chunk
  | i, [], sec, buf, s, chunks => flushChunk sec buf s ((i : Int) - 1) chunks
  | i, line :: rest, sec, buf, s, chunks =>
    match headingMatch line with
    | some g =>
      let chunks' := flushChunk sec buf s ((i : Int) - 1) chunks
      splitPass1 (i + 1) rest (if g = [] then defaultSection else g) []
        ((i : Int) + 1) chunks'
    | none => splitPass1 (i + 1) rest sec (buf ++ [line]) s chunks

/-- Greedy paragraph packing loop of `split_into_chunks` (second pass):
a paragraph is appended to the current pack unless that would push the
accumulated paragraph length over 1200 and the pack is non-empty. -/
def packLoop (ch : Chunk) : List Str → List Str → Nat → List Chunk
  | [], current, _ =>
    if current ≠ [] then
      [⟨ch.sectionName, joinSep ['\n', '\n'] current, ch.start_line, ch.end_line⟩]
    else []
  | p :: ps, current, clen =>
    if 1200 < clen + p.length ∧ current ≠ [] then
      ⟨ch.sectionName, joinSep ['\n', '\n'] current, ch.start_line, ch.end_line⟩ ::
        packLoop ch ps [p] p.length
    else packLoop ch ps (current ++ [p]) (clen + p.length)

/-- The paragraphs of a provisional chunk: split on blank lines, strip,
drop empties. -/
def chunkParas (ch : Chunk) : List Str :=
  ((pySplitNlNl ch.text).map pyStrip).filter (fun p => p ≠ [])

/-- Second pass of `split_into_chunks` for one provisional chunk. -/
def packSection (ch : Chunk) : List Chunk := packLoop ch (chunkParas ch) [] 0

/-- The chunk splitter `split_into_chunks` of `retrieval.py`. -/
def split_into_chunks (plain_text : Str) : List Chunk :=
  let lines := pySplitlines plain_text
  let chunks := splitPass1 0 lines introductionSection [] 0 []
  let final_chunks := (chunks.map packSection).flatten
  if final_chunks = [] then chunks else final_chunks

/-- Instrumented version of `packLoop` recording the packed paragraph
groups instead of the joined texts; used to reason about chunk lengths. -/
def packGroups : List Str → List Str → Nat → List (List Str)
  | [], current, _ => if current ≠ [] then [current] else []
  | p :: ps, current, clen =>
    if 1200 < clen + p.length ∧ current ≠ [] then
      current :: packGroups ps [p] p.length
    else packGroups ps (current ++ [p]) (clen + p.length)

/-- Replace every character outside `[a-z0-9\s]` by a space
(the `re.sub` step of `simple_tokenize`, applied after lowercasing). -/
def keepAlnum (c : Char) : Char :=
  if ('a' ≤ c ∧ c ≤ 'z') ∨ ('0' ≤ c ∧ c ≤ '9') ∨ isPySpace c then c else ' '

/-- The tokenizer `simple_tokenize` of `retrieval.py`: lowercase, replace
punctuation by spaces, split on whitespace, drop empty tokens. -/
def simple_tokenize (s : Str) : List Str :=
  (pyWords ((s.map Char.toLower).map keepAlnum)).filter (fun t => t ≠ [])

/-- The scorer `score_chunk` of `retrieval.py`.  Python floats are
modelled as real numbers.  The Python iteration over `set(...)` is
modelled by `List.dedup`; the summations are order-independent. -/
noncomputable def score_chunk (query : Str) (history : List Str) (chunk : Chunk) : ℝ :=
  let q_tokens := simple_tokenize query
  let hist_tokens :=
    if history ≠ [] then
      simple_tokenize (joinSep [' '] (history.drop (history.length - 4)))
    else []
  let tokens := (q_tokens ++ hist_tokens).dedup
  if tokens = [] then 0
  else
    let ch_tokens := simple_tokenize chunk.text
    if ch_tokens = [] then 0
    else
      let overlap : ℝ := ((tokens.map (fun t => (ch_tokens.count t : ℝ))).sum)
      let normalized := overlap / (1 + Real.sqrt (ch_tokens.length : ℝ))
      let sec_tokens := simple_tokenize chunk.sectionName
      normalized + ((tokens.filter (fun t => t ∈ sec_tokens)).length : ℝ) * (1 / 2)

/-- Descending comparison on scored chunks: the ranking used by
`scored.sort(key=lambda x: x[0], reverse=True)`. -/
def rankRel (a b : ℝ × Chunk) : Prop := b.1 ≤ a.1

noncomputable instance : DecidableRel rankRel := fun a b => Real.decidableLE b.1 a.1

instance : IsTotal (ℝ × Chunk) rankRel := ⟨fun a b => le_total b.1 a.1⟩

instance : IsTrans (ℝ × Chunk) rankRel := ⟨fun _ _ _ h1 h2 => le_trans h2 h1⟩

/-- The retriever `retrieve_top_k` of `retrieval.py`.  Python's
`list.sort` is a stable sort; with `reverse=True` it keeps the original
relative order of equal keys, which is exactly stable insertion sort on
the descending ranking. -/
noncomputable def retrieve_top_k (chunks : List Chunk) (query : Str)
    (history : List Str) (k : Nat := 5) : List Chunk :=
  let scored := chunks.map (fun ch => (score_chunk query history ch, ch))
  let sorted := List.insertionSort rankRel scored
  ((sorted.take k).filter (fun p => 0 < p.1)).map (fun p => p.2)

/-- History reconstruction scan of `ChatOrchestrator.answer_question`
(lines 54-65 of `orchestrator.py`), over (role, text) pairs: a user
message becomes the pending question (overwriting any unconsumed one),
an assistant message pairs with the pending question, and a pending
question left at the end is appended with an empty answer. -/
def pairsAux : Option Str → List (Str × Str) → List (Str × Str)
  | pending, [] =>
    match pending with
    | some u => [(u, [])]
    | none => []
  | pending, (role, text) :: rest =>
    if role = "user".toList then pairsAux (some text) rest
    else if role = "assistant".toList then
      match pending with
      | some u => (u, text) :: pairsAux none rest
      | none => pairsAux none rest
    else pairsAux pending rest

/-- History pairs reconstructed from a chronological (role, text) list. -/
def historyPairs (msgs : List (Str × Str)) : List (Str × Str) :=
  pairsAux none msgs

/-- One entry of the message list handed to the language model
(the `{"role": ..., "content": ...}` dicts of `llm.py`). -/
structure ChatMsg where
  role : Str
  content : Str
deriving DecidableEq, Repr

/-- The fixed grounding instructions of `LLMClient.build_messages`. -/
def systemPrompt : Str :=
  ("You are a helpful assistant answering strictly from the provided Wikipedia context. " ++
    "Be clear, well-structured, and as informative as possible without fabricating. " ++
    "Organize responses with a brief summary first, then key points or steps as bullet points, and a short details section when helpful. " ++
    "Define important terms and include dates, names, and figures when relevant. " ++
    "Cite sections using [Section: <name>] and include very short quotes where helpful. " ++
    "If the answer is not in the context, say so plainly and point to likely relevant sections.").toList

/-- Rendering of the retrieved chunks as `[Chunk <i>] Section: <name>\n<text>`
entries, with indices starting at 1 (`enumerate(chunks, 1)`). -/
def ctxParts : Nat → List Chunk → List Str
  | _, [] => []
  | i, ch :: rest =>
    ("[Chunk ".toList ++ (toString i).toList ++ "] Section: ".toList ++
      ch.sectionName ++ ['\n'] ++ ch.text) :: ctxParts (i + 1) rest

/-- The prompt builder `LLMClient.build_messages` of `llm.py`. -/
def build_messages (question : Str) (history_pairs : List (Str × Str))
    (chunks : List Chunk) (article_title : Str) (article_url : Option Str) :
    List ChatMsg :=
  let ctx := joinSep ['\n', '\n'] (ctxParts 1 chunks)
  let src_line :=
    pyStrip ("Article: ".toList ++ article_title ++ " - ".toList ++
      (article_url.getD []))
  let content_instruction :=
    "Use only these sources to answer thoroughly. Prefer concise structure over long prose.\n".toList ++
      src_line ++ "\n\n".toList ++ ctx
  let hist := history_pairs.drop (history_pairs.length - 4)
  [⟨"system".toList, systemPrompt⟩, ⟨"system".toList, content_instruction⟩] ++
    (hist.map (fun p =>
      ⟨"user".toList, p.1⟩ ::
        (if p.2 ≠ [] then [(⟨"assistant".toList, p.2⟩ : ChatMsg)] else []))).flatten ++
    [⟨"user".toList, question⟩]

/-- Sentence splitting used by the extractive fallback:
`re.split(r"(?<=[.!?])\s+", text)` splits at each whitespace run that
follows one of `.`, `!`, `?`, consuming the whitespace.  The Boolean
flag is true while the matched whitespace run is being consumed. -/
def sentenceSplitAux : Bool → Str → Str → List Str
  | _, acc, [] => [acc.reverse]
  | true, acc, c :: rest =>
    if isPySpace c then sentenceSplitAux true acc rest
    else sentenceSplitAux false (c :: acc) rest
  | false, acc, c :: rest =>
    if isPySpace c ∧
        (acc.head? = some '.' ∨ acc.head? = some '!' ∨ acc.head? = some '?') then
      acc.reverse :: sentenceSplitAux true [] rest
    else sentenceSplitAux false (c :: acc) rest

/-- The snippet of a chunk in the extractive fallback: the first three
sentences of the stripped text, joined by single spaces. -/
def extractSnippet (text : Str) : Str :=
  joinSep [' '] ((sentenceSplitAux false [] (pyStrip text)).take 3)

/-- The snippet-list answer of the extractive fallback. -/
def snippetsAnswer (snippet_lines : List Str) : Str :=
  "LLM is unavailable. Based on the article context, here are the most relevant snippets and where to look next:\n\n".toList ++
    joinSep "\n\n".toList snippet_lines ++
    "\n\nSuggestions: consider reading the cited sections in full for more detail, or refine your question to target a specific part.".toList

/-- The distinct "nothing relevant found" message of the extractive
fallback (two adjacent Python string literals). -/
def nothingRelevantAnswer : Str :=
  ("LLM is unavailable and I couldn't find relevant content in the provided article. " ++
    "Try rephrasing the question or loading a different section/article.").toList

/-- The bulleted link list produced by the external-search fallback
(`"\n".join(md_lines)`); `results` is already truncated to five. -/
def renderExternalLinks (results : List (Str × Str)) : Str :=
  joinSep ['\n']
    ("I couldn't find this directly in the article. Here are a few external resources:".toList ::
      [] ::
      results.map (fun r => "- [".toList ++ r.1 ++ "](".toList ++ r.2 ++ [')']))

/-- The `article` part of a citation record. -/
structure CitationArticle where
  title : Str
  url : Option Str
deriving DecidableEq, Repr

/-- The citation record assembled by `answer_question`; `external = none`
models the `external` key being absent from the Python dict. -/
structure Citations where
  article : CitationArticle
  sections : List Str
  external : Option Bool
deriving DecidableEq, Repr

/-- Row of the `sessions` table as returned by `Database.get_session`:
`(id, name, created_at, language, article_title, article_url)`. -/
structure SessionRow where
  id : Int
  name : Str
  created_at : Str
  language : Str
  article_title : Option Str
  article_url : Option Str

/-- Row of the `messages` table as returned by `Database.list_messages`:
`(id, session_id, role, text, created_at, citations)`. -/
structure MsgRow where
  id : Int
  session_id : Int
  role : Str
  text : Str
  created_at : Str
  citations : Option Str

/-- Cached article as returned by `Database.get_article`. -/
structure ArticleRow where
  title : Str
  language : Str
  pageid : Option Int
  revision_id : Option Int
  url : Option Str
  fetched_at : Str
  content : Str

/-- Abstract state of the SQLite store: session lookup by id, the
chronological message list per session, and the (title, language)-keyed
article cache. -/
structure DBState where
  sessions : Int → Option SessionRow
  messages : Int → List MsgRow
  articles : Str → Str → Option ArticleRow

/-- The upsert of `Database.upsert_article`: unique on (title, language),
a conflict replaces all fields. -/
def upsert_article (db : DBState) (title language : Str)
    (pageid revision_id : Option Int) (url : Option Str) (content : Str)
    (fetched_at : Str) : DBState :=
  { db with
    articles := fun t l =>
      if t = title ∧ l = language then
        some ⟨title, language, pageid, revision_id, url, fetched_at, content⟩
      else db.articles t l }

/-- Result of `WikipediaClient.fetch_page_extract`: a dict whose values
may be `None`; a `none` field models both an absent key and a `None`
value, read back through `dict.get` with the orchestrator's defaults. -/
structure FetchData where
  title : Option Str
  pageid : Option Int
  revision_id : Option Int
  url : Option Str
  extract : Option Str

/-- Environment of oracle collaborators: the article source (bound to a
language), the language-model client, the external web search (already
parsed into (label, url) result pairs, empty on any failure, which the
orchestrator swallows identically), and the clock behind `now_iso`. -/
structure Env where
  fetch_page_extract : Str → Str → Option FetchData
  llm_available : Bool
  llm_chat : List ChatMsg → Str
  external_search : Str → List (Str × Str)
  now : Str

/-- Error message raised for an unknown session id. -/
def errInvalidSession : Str := "Invalid session.".toList

/-- Error message raised when the session has no article selected. -/
def errSelectArticle : Str := "Select an article first.".toList

/-- Error message raised when the article source reports "not found". -/
def errArticleNotFound : Str := "Article not found.".toList

/-- Python truthiness test `not article_title` on an optional string. -/
def pyFalsy : Option Str → Bool
  | none => true
  | some s => s.isEmpty

/-- The orchestrator's `ensure_article_cached`, instrumented with the
number of article-source fetches it issues (0 or 1) as the last
component. -/
def ensure_article_cached (env : Env) (db : DBState) (title : Str)
    (language : Str) :
    Except Str (Str × Option Str × List Chunk) × DBState × Nat :=
  match db.articles title language with
  | some cached => (.ok (title, cached.url, split_into_chunks cached.content), db, 0)
  | none =>
    match env.fetch_page_extract language title with
    | none => (.error errArticleNotFound, db, 1)
    | some data =>
      let content := data.extract.getD []
      let db' := upsert_article db (data.title.getD title) language data.pageid
        data.revision_id data.url content env.now
      (.ok (data.title.getD title, data.url, split_into_chunks content), db', 1)

/-- The tail of `answer_question` after retrieval (lines 70-134 of
`orchestrator.py`): the citation record, the model call with the
empty-answer soft failure, the extractive fallback (guarded by the model
being unavailable), and the external-search fallback. -/
def answerCore (env : Env) (question : Str)
    (history_pairs : List (Str × Str)) (top_chunks : List Chunk)
    (title : Str) (url : Option Str) : Str × Citations :=
  let citations : Citations :=
    ⟨⟨title, url⟩, top_chunks.map (fun ch => ch.sectionName), none⟩
  let step1 :=
    if env.llm_available then
      let messages := build_messages question history_pairs top_chunks title url
      let answer := env.llm_chat messages
      if pyStrip answer = [] then (answer, ([] : List Chunk))
      else (answer, top_chunks)
    else ([], top_chunks)
  let answer1 := step1.1
  let top_chunks1 := step1.2
  let answer2 :=
    if env.llm_available then answer1
    else
      let snippet_lines := (top_chunks1.take 5).map (fun ch =>
        "[Section: ".toList ++ ch.sectionName ++ "] ".toList ++
          extractSnippet ch.text)
      if snippet_lines ≠ [] then snippetsAnswer snippet_lines
      else nothingRelevantAnswer
  let step3 :=
    if top_chunks1 = [] ∧ pyStrip answer2 = [] then
      let results := env.external_search question
      if results ≠ [] then (renderExternalLinks (results.take 5), true)
      else (answer2, false)
    else (answer2, false)
  let citations2 :=
    if step3.2 then { citations with external := some true } else citations
  (step3.1, citations2)

/-- The orchestrator's `answer_question`, threading the store state and
returning either an error (a raised `ValueError`) or the answer and its
citation record. -/
noncomputable def answer_question (env : Env) (db : DBState)
    (session_id : Int) (question : Str) :
    Except Str (Str × Citations) × DBState :=
  match db.sessions session_id with
  | none => (.error errInvalidSession, db)
  | some session =>
    if pyFalsy session.article_title then (.error errSelectArticle, db)
    else
      let article_title := session.article_title.getD []
      match ensure_article_cached env db article_title session.language with
      | (.error e, db', _) => (.error e, db')
      | (.ok (title, url, chunks), db', _) =>
        let msgs := db'.messages session_id
        let history_pairs := historyPairs (msgs.map (fun m => (m.role, m.text)))
        let hist_texts := history_pairs.map (fun p => p.1)
        let top_chunks := retrieve_top_k chunks question hist_texts 5
        (.ok (answerCore env question history_pairs top_chunks title url), db')

/-! ### Theorems -/

/-- Absence of a `"\n\n"` occurrence, as a chain condition on adjacent
characters. -/
abbrev noNlNl (l : Str) : Prop :=
  List.Chain' (fun a b => ¬(a = '\n' ∧ b = '\n')) l

/-- Length of a separator join: the lengths of the pieces plus one
separator per gap. -/
theorem joinSep_length (sep : Str) :
    ∀ gs : List Str, gs ≠ [] →
      (joinSep sep gs).length = (gs.map List.length).sum + sep.length * (gs.length - 1)
  | [], h => absurd rfl h
  | [x], _ => by simp [joinSep]
  | x :: y :: t, _ => by
    have ih := joinSep_length sep (y :: t) (by simp)
    show (x ++ sep ++ joinSep sep (y :: t)).length = _
    rw [List.length_append, List.length_append, ih]
    simp only [List.map_cons, List.sum_cons, List.length_cons, Nat.add_sub_cancel]
    ring

/-- The head of a `dropWhile` result never satisfies the predicate. -/
theorem head?_dropWhile_not {α : Type} (p : α → Bool) (l : List α) {c : α}
    (h : (l.dropWhile p).head? = some c) : p c = false := by
  induction l with
  | nil => simp [List.dropWhile] at h
  | cons x t ih =>
    rw [List.dropWhile_cons] at h
    by_cases hx : p x
    · rw [if_pos hx] at h
      exact ih h
    · rw [if_neg hx] at h
      simp only [List.head?_cons, Option.some.injEq] at h
      rw [← h]
      exact Bool.eq_false_iff.mpr hx

/-- Dropping trailing characters yields a prefix. -/
theorem dropTrailing_pre (p : Char → Bool) (s : Str) :
    dropTrailing p s <+: s := by
  have h : (s.reverse.dropWhile p) <:+ s.reverse := List.dropWhile_suffix p
  have h2 := Iff.mpr List.reverse_prefix h
  rwa [List.reverse_reverse] at h2

/-- A non-empty prefix has the same head. -/
theorem isPrefix_head? {α : Type} {l₁ l₂ : List α} (h : l₁ <+: l₂)
    (hne : l₁ ≠ []) : l₂.head? = l₁.head? := by
  obtain ⟨t, rfl⟩ := h
  cases l₁ with
  | nil => exact absurd rfl hne
  | cons a t1 => rfl

/-- The head of a non-empty stripped string is not whitespace. -/
theorem pyStrip_head (l : Str) (h : pyStrip l ≠ []) :
    ∃ c, (pyStrip l).head? = some c ∧ isPySpace c = false := by
  cases hh : (pyStrip l).head? with
  | none => exact absurd (List.head?_eq_none_iff.mp hh) h
  | some c =>
    refine ⟨c, rfl, ?_⟩
    have hpre : pyStrip l <+: pyLstrip l := dropTrailing_pre _ _
    have h2 : (pyLstrip l).head? = some c := by
      rw [isPrefix_head? hpre h]
      exact hh
    exact head?_dropWhile_not isPySpace l h2

/-- The last character of a stripped string is not whitespace. -/
theorem pyStrip_getLast (l : Str) {c : Char}
    (h : (pyStrip l).getLast? = some c) : isPySpace c = false := by
  have e : (pyStrip l).reverse = (pyLstrip l).reverse.dropWhile isPySpace := by
    simp [pyStrip, pyRstrip, dropTrailing]
  rw [List.getLast?_eq_head?_reverse, e] at h
  exact head?_dropWhile_not _ _ h

/-- A string stripping to empty is all whitespace. -/
theorem pyStrip_eq_nil (l : Str) (h : pyStrip l = []) :
    ∀ c ∈ l, isPySpace c = true := by
  intro c hc
  have h1 : (pyLstrip l).reverse.dropWhile isPySpace = [] := by
    have := congrArg List.reverse h
    simpa [pyStrip, pyRstrip, dropTrailing] using this
  have h2 : ∀ x ∈ pyLstrip l, isPySpace x = true := by
    intro x hx
    exact List.dropWhile_eq_nil_iff.mp h1 x (List.mem_reverse.mpr hx)
  rcases List.mem_append.mp
      ((List.takeWhile_append_dropWhile isPySpace l) ▸ hc) with h3 | h3
  · exact List.mem_takeWhile_imp h3
  · exact h2 c h3

/-- A string containing a non-whitespace character strips to non-empty. -/
theorem pyStrip_ne_nil_of_mem {l : Str} {c : Char} (hc : c ∈ l)
    (hns : isPySpace c = false) : pyStrip l ≠ [] := by
  intro h
  rw [pyStrip_eq_nil l h c hc] at hns
  cases hns

/-- Stripping preserves the absence of double newlines. -/
theorem noNlNl_pyStrip {l : Str} (h : noNlNl l) : noNlNl (pyStrip l) :=
  List.Chain'.prefix (h.suffix (List.dropWhile_suffix _)) (dropTrailing_pre _ _)

/-- Scanning a separator-free string produces a single piece. -/
theorem splitNlNlAux_no_sep :
    ∀ (g acc : Str), noNlNl g → splitNlNlAux acc g = [acc.reverse ++ g]
  | [], acc, _ => by simp [splitNlNlAux]
  | [c], acc, _ => by simp [splitNlNlAux]
  | c :: d :: rest, acc, h => by
    have hcd : ¬(c = '\n' ∧ d = '\n') := (List.chain'_cons.mp h).1
    have ih := splitNlNlAux_no_sep (d :: rest) (c :: acc) (List.chain'_cons.mp h).2
    rw [splitNlNlAux, if_neg hcd, ih]
    simp

/-- Scanning a clean piece followed by the separator emits that piece and
continues after the separator. -/
theorem splitNlNlAux_sep :
    ∀ (g : Str), noNlNl g → g.getLast? ≠ some '\n' →
      ∀ (acc rest : Str),
        splitNlNlAux acc (g ++ '\n' :: '\n' :: rest) =
          (acc.reverse ++ g) :: splitNlNlAux [] rest
  | [], _, _, acc, rest => by simp [splitNlNlAux]
  | [c], _, hlast, acc, rest => by
    have hc : c ≠ '\n' := by simpa using hlast
    show splitNlNlAux acc (c :: '\n' :: ('\n' :: rest)) = _
    rw [splitNlNlAux, if_neg (fun hx => hc hx.1)]
    rw [splitNlNlAux, if_pos ⟨rfl, rfl⟩]
    simp
  | c :: d :: g', h, hlast, acc, rest => by
    have hcd : ¬(c = '\n' ∧ d = '\n') := (List.chain'_cons.mp h).1
    have hlast' : (d :: g').getLast? ≠ some '\n' := by
      rwa [List.getLast?_cons_cons] at hlast
    have ih := splitNlNlAux_sep (d :: g') (List.chain'_cons.mp h).2 hlast'
      (c :: acc) rest
    rw [List.cons_append] at ih
    show splitNlNlAux acc (c :: ((d :: g') ++ '\n' :: '\n' :: rest)) = _
    rw [List.cons_append, splitNlNlAux, if_neg hcd, ih]
    simp

/-- Every piece produced by the scan is free of double newlines, given
the invariant that the accumulator is clean and does not end (in scan
order) with a newline followed by a newline at the input head. -/
theorem splitNlNlAux_pieces :
    ∀ (input acc : Str), noNlNl acc.reverse →
      (acc.head? = some '\n' → input.head? ≠ some '\n') →
      ∀ piece ∈ splitNlNlAux acc input, noNlNl piece
  | [], acc, h1, _ => by
    intro piece hp
    simp only [splitNlNlAux, List.mem_singleton] at hp
    rwa [hp]
  | [c], acc, h1, h2 => by
    intro piece hp
    simp only [splitNlNlAux, List.mem_singleton] at hp
    subst hp
    rw [List.reverse_cons]
    refine List.chain'_append.mpr ⟨h1, List.chain'_singleton c, ?_⟩
    intro x hx y hy
    rw [List.getLast?_reverse] at hx
    simp only [List.head?_cons, Option.mem_def, Option.some.injEq] at hy
    subst hy
    rintro ⟨hx', hy'⟩
    subst hx' hy'
    exact (h2 hx) rfl
  | c :: d :: rest, acc, h1, h2 => by
    intro piece hp
    by_cases hcd : c = '\n' ∧ d = '\n'
    · rw [splitNlNlAux, if_pos hcd] at hp
      rcases List.mem_cons.mp hp with hp | hp
      · rwa [hp]
      · exact splitNlNlAux_pieces rest [] List.chain'_nil (by simp) piece hp
    · rw [splitNlNlAux, if_neg hcd] at hp
      have hacc : noNlNl (c :: acc).reverse := by
        rw [List.reverse_cons]
        refine List.chain'_append.mpr ⟨h1, List.chain'_singleton c, ?_⟩
        intro x hx y hy
        rw [List.getLast?_reverse] at hx
        simp only [List.head?_cons, Option.mem_def, Option.some.injEq] at hy
        subst hy
        rintro ⟨hx', hy'⟩
        subst hx' hy'
        exact (h2 hx) rfl
      refine splitNlNlAux_pieces (d :: rest) (c :: acc) hacc ?_ piece hp
      intro hc hd
      simp only [List.head?_cons, Option.some.injEq] at hc hd
      exact hcd ⟨hc, hd⟩

/-- Joining clean pieces with the separator and re-splitting recovers the
pieces. -/
theorem pySplitNlNl_joinSep :
    ∀ (G : List Str), G ≠ [] →
      (∀ g ∈ G, noNlNl g ∧ g.getLast? ≠ some '\n') →
      pySplitNlNl (joinSep ['\n', '\n'] G) = G
  | [], h, _ => absurd rfl h
  | [g], _, hg => by
    show splitNlNlAux [] g = [g]
    rw [splitNlNlAux_no_sep g [] (hg g (by simp)).1]
    rfl
  | g :: g2 :: t, _, hg => by
    show splitNlNlAux [] (g ++ ['\n', '\n'] ++ joinSep ['\n', '\n'] (g2 :: t)) = _
    rw [List.append_assoc]
    rw [show (['\n', '\n'] ++ joinSep ['\n', '\n'] (g2 :: t)) =
      '\n' :: '\n' :: joinSep ['\n', '\n'] (g2 :: t) from rfl]
    rw [splitNlNlAux_sep g (hg g (by simp)).1 (hg g (by simp)).2 [] _]
    rw [show splitNlNlAux [] (joinSep ['\n', '\n'] (g2 :: t)) =
      pySplitNlNl (joinSep ['\n', '\n'] (g2 :: t)) from rfl]
    rw [pySplitNlNl_joinSep (g2 :: t) (by simp)
      (fun x hx => hg x (List.mem_cons_of_mem g hx))]
    rfl

/-- The first piece of a scan extends the accumulator. -/
theorem splitNlNlAux_head_ex :
    ∀ (t acc : Str), ∃ p rest, splitNlNlAux acc t = (acc.reverse ++ p) :: rest
  | [], acc => ⟨[], [], by simp [splitNlNlAux]⟩
  | [c], acc => ⟨[c], [], by simp [splitNlNlAux]⟩
  | c :: d :: r, acc => by
    by_cases hcd : c = '\n' ∧ d = '\n'
    · exact ⟨[], splitNlNlAux [] r, by rw [splitNlNlAux, if_pos hcd]; simp⟩
    · obtain ⟨p, rest, hp⟩ := splitNlNlAux_head_ex (d :: r) (c :: acc)
      refine ⟨c :: p, rest, ?_⟩
      rw [splitNlNlAux, if_neg hcd, hp]
      simp

/-- A text whose head is not a newline has that character in its first
blank-line-split piece. -/
theorem pySplitNlNl_first_mem (t : Str) (c : Char) (hhead : t.head? = some c)
    (hc : c ≠ '\n') : ∃ piece rest, pySplitNlNl t = piece :: rest ∧ c ∈ piece := by
  cases t with
  | nil => cases hhead
  | cons c0 t' =>
    simp only [List.head?_cons, Option.some.injEq] at hhead
    subst hhead
    cases t' with
    | nil => exact ⟨[c0], [], rfl, by simp⟩
    | cons d r =>
      obtain ⟨p, rest, hp⟩ := splitNlNlAux_head_ex (d :: r) [c0]
      refine ⟨c0 :: p, rest, ?_, by simp⟩
      show splitNlNlAux [] (c0 :: d :: r) = _
      rw [splitNlNlAux, if_neg (fun hx => hc hx.1), hp]
      simp

/-- Reduction of `answer_question` for an unknown session id. -/
lemma answer_question_invalid (env : Env) (db : DBState) (sid : Int) (q : Str)
    (h : db.sessions sid = none) :
    answer_question env db sid q = (.error errInvalidSession, db) := by
  unfold answer_question
  rw [h]

/-- Reduction of `answer_question` for a session without an article. -/
lemma answer_question_no_article (env : Env) (db : DBState) (sid : Int)
    (q : Str) (row : SessionRow) (hs : db.sessions sid = some row)
    (hf : pyFalsy row.article_title = true) :
    answer_question env db sid q = (.error errSelectArticle, db) := by
  unfold answer_question
  rw [hs]
  simp [hf]

/-- Reduction of `answer_question` when the article is not cached and the
source reports "not found". -/
lemma answer_question_notfound (env : Env) (db : DBState) (sid : Int)
    (q : Str) (row : SessionRow) (hs : db.sessions sid = some row)
    (hf : pyFalsy row.article_title = false)
    (hmiss : db.articles (row.article_title.getD []) row.language = none)
    (hfetch : env.fetch_page_extract row.language
      (row.article_title.getD []) = none) :
    answer_question env db sid q = (.error errArticleNotFound, db) := by
  have he : ensure_article_cached env db (row.article_title.getD [])
      row.language = (.error errArticleNotFound, db, 1) := by
    unfold ensure_article_cached
    rw [hmiss, hfetch]
  unfold answer_question
  rw [hs]
  simp [hf, he]

/-- Reduction of `answer_question` on a cache hit: the store is left
untouched and the answer is produced from the cached content. -/
lemma answer_question_hit (env : Env) (db : DBState) (sid : Int) (q : Str)
    (row : SessionRow) (cached : ArticleRow) (hs : db.sessions sid = some row)
    (hf : pyFalsy row.article_title = false)
    (hart : db.articles (row.article_title.getD []) row.language = some cached) :
    answer_question env db sid q =
      (.ok (answerCore env q
        (historyPairs ((db.messages sid).map (fun m => (m.role, m.text))))
        (retrieve_top_k (split_into_chunks cached.content) q
          ((historyPairs ((db.messages sid).map
            (fun m => (m.role, m.text)))).map (fun p => p.1)) 5)
        (row.article_title.getD []) cached.url), db) := by
  have he : ensure_article_cached env db (row.article_title.getD [])
      row.language =
      (.ok (row.article_title.getD [], cached.url,
        split_into_chunks cached.content), db, 0) := by
    unfold ensure_article_cached
    rw [hart]
  unfold answer_question
  rw [hs]
  simp [hf, he]

/-- Reduction of `answer_question` on a cache miss with a successful
fetch: the article is upserted and the answer is produced from the
fetched content. -/
lemma answer_question_miss_fetch (env : Env) (db : DBState) (sid : Int)
    (q : Str) (row : SessionRow) (d : FetchData)
    (hs : db.sessions sid = some row)
    (hf : pyFalsy row.article_title = false)
    (hmiss : db.articles (row.article_title.getD []) row.language = none)
    (hfetch : env.fetch_page_extract row.language
      (row.article_title.getD []) = some d) :
    answer_question env db sid q =
      (.ok (answerCore env q
        (historyPairs (((upsert_article db
          (d.title.getD (row.article_title.getD [])) row.language d.pageid
          d.revision_id d.url (d.extract.getD []) env.now).messages sid).map
            (fun m => (m.role, m.text))))
        (retrieve_top_k (split_into_chunks (d.extract.getD [])) q
          ((historyPairs (((upsert_article db
            (d.title.getD (row.article_title.getD [])) row.language d.pageid
            d.revision_id d.url (d.extract.getD []) env.now).messages sid).map
              (fun m => (m.role, m.text)))).map (fun p => p.1)) 5)
        (d.title.getD (row.article_title.getD [])) d.url),
      upsert_article db (d.title.getD (row.article_title.getD []))
        row.language d.pageid d.revision_id d.url (d.extract.getD [])
        env.now) := by
  have he : ensure_article_cached env db (row.article_title.getD [])
      row.language =
      (.ok (d.title.getD (row.article_title.getD []), d.url,
        split_into_chunks (d.extract.getD [])),
      upsert_article db (d.title.getD (row.article_title.getD []))
        row.language d.pageid d.revision_id d.url (d.extract.getD [])
        env.now, 1) := by
    unfold ensure_article_cached
    rw [hmiss, hfetch]
  unfold answer_question
  rw [hs]
  simp [hf, he]

/-- C7: `answer_question` fails with the invalid-session error exactly
when the session id is unknown, with the select-an-article error exactly
when the session exists but its article title is unset (None or empty),
and with the propagated article-not-found error when the article is not
cached and the source reports it missing; every failure returns the
store unchanged and produces no answer. -/
theorem answer_question_precondition_errors (env : Env) (db : DBState)
    (sid : Int) (q : Str) :
    ((answer_question env db sid q).1 = .error errInvalidSession ↔
      db.sessions sid = none) ∧
    ((answer_question env db sid q).1 = .error errSelectArticle ↔
      ∃ row, db.sessions sid = some row ∧ pyFalsy row.article_title = true) ∧
    (∀ row, db.sessions sid = some row → pyFalsy row.article_title = false →
      db.articles (row.article_title.getD []) row.language = none →
      env.fetch_page_extract row.language (row.article_title.getD []) = none →
      (answer_question env db sid q).1 = .error errArticleNotFound) ∧
    (∀ e, (answer_question env db sid q).1 = .error e →
      (answer_question env db sid q).2 = db) := by
  have hinv : errSelectArticle ≠ errInvalidSession := by decide
  have hnf1 : errArticleNotFound ≠ errInvalidSession := by decide
  have hnf2 : errArticleNotFound ≠ errSelectArticle := by decide
  cases hs : db.sessions sid with
  | none =>
    rw [answer_question_invalid env db sid q hs]
    refine ⟨by simp, ?_, ?_, fun e _ => rfl⟩
    · constructor
      · intro h
        exact absurd (Except.error.inj h).symm hinv
      · rintro ⟨row, hrow, -⟩
        exact Option.noConfusion hrow
    · intro row hrow
      exact Option.noConfusion hrow
  | some row =>
    cases hft : pyFalsy row.article_title with
    | true =>
      rw [answer_question_no_article env db sid q row hs hft]
      refine ⟨?_, ?_, ?_, fun e _ => rfl⟩
      · constructor
        · intro h
          exact absurd (Except.error.inj h) hinv
        · intro h
          exact Option.noConfusion h
      · exact ⟨fun _ => ⟨row, rfl, hft⟩, fun _ => rfl⟩
      · intro row' hrow' hf'
        injection hrow' with h
        subst h
        rw [hft] at hf'
        exact Bool.noConfusion hf'
    | false =>
      cases hart : db.articles (row.article_title.getD []) row.language with
      | some cached =>
        rw [answer_question_hit env db sid q row cached hs hft hart]
        refine ⟨?_, ?_, ?_, fun e h => Except.noConfusion h⟩
        · exact ⟨fun h => Except.noConfusion h, fun h => Option.noConfusion h⟩
        · refine ⟨fun h => Except.noConfusion h, ?_⟩
          rintro ⟨row', hrow', hf'⟩
          injection hrow' with h
          subst h
          rw [hft] at hf'
          exact Bool.noConfusion hf'
        · intro row' hrow' _ hmiss' _
          injection hrow' with h
          subst h
          rw [hart] at hmiss'
          exact Option.noConfusion hmiss'
      | none =>
        cases hfetch : env.fetch_page_extract row.language
            (row.article_title.getD []) with
        | none =>
          rw [answer_question_notfound env db sid q row hs hft hart hfetch]
          refine ⟨?_, ?_, fun _ _ _ _ _ => rfl, fun e _ => rfl⟩
          · constructor
            · intro h
              exact absurd (Except.error.inj h) hnf1
            · intro h
              exact Option.noConfusion h
          · constructor
            · intro h
              exact absurd (Except.error.inj h) hnf2
            · rintro ⟨row', hrow', hf'⟩
              injection hrow' with h
              subst h
              rw [hft] at hf'
              exact Bool.noConfusion hf'
        | some d =>
          rw [answer_question_miss_fetch env db sid q row d hs hft hart hfetch]
          refine ⟨?_, ?_, ?_, fun e h => Except.noConfusion h⟩
          · exact ⟨fun h => Except.noConfusion h, fun h => Option.noConfusion h⟩
          · refine ⟨fun h => Except.noConfusion h, ?_⟩
            rintro ⟨row', hrow', hf'⟩
            injection hrow' with h
            subst h
            rw [hft] at hf'
            exact Bool.noConfusion hf'
          · intro row' hrow' _ _ hfetch'
            injection hrow' with h
            subst h
            rw [hfetch] at hfetch'
            exact Option.noConfusion hfetch'

/-- Witness for C7 at a store with no sessions: the invalid-session
error is returned. -/
theorem answer_question_precondition_errors_witness :
    (answer_question
      { fetch_page_extract := fun _ _ => none, llm_available := false,
        llm_chat := fun _ => [], external_search := fun _ => [], now := [] }
      { sessions := fun _ => none, messages := fun _ => [],
        articles := fun _ _ => none } 7 "hi".toList).1 =
      .error errInvalidSession :=
  (answer_question_precondition_errors
    { fetch_page_extract := fun _ _ => none, llm_available := false,
      llm_chat := fun _ => [], external_search := fun _ => [], now := [] }
    { sessions := fun _ => none, messages := fun _ => [],
      articles := fun _ _ => none } 7 "hi".toList).1.mpr rfl

/-- C9: `answer_question` never mutates sessions or messages; the only
store mutation it can perform is the article-cache upsert, and only on a
cache miss with a successful fetch. -/
theorem answer_question_frame (env : Env) (db : DBState) (sid : Int)
    (q : Str) :
    (answer_question env db sid q).2.sessions = db.sessions ∧
    (answer_question env db sid q).2.messages = db.messages ∧
    ((answer_question env db sid q).2.articles = db.articles ∨
      ∃ row d, db.sessions sid = some row ∧
        db.articles (row.article_title.getD []) row.language = none ∧
        env.fetch_page_extract row.language (row.article_title.getD []) =
          some d ∧
        (answer_question env db sid q).2 =
          upsert_article db (d.title.getD (row.article_title.getD []))
            row.language d.pageid d.revision_id d.url (d.extract.getD [])
            env.now) := by
  cases hs : db.sessions sid with
  | none =>
    rw [answer_question_invalid env db sid q hs]
    exact ⟨rfl, rfl, Or.inl rfl⟩
  | some row =>
    cases hft : pyFalsy row.article_title with
    | true =>
      rw [answer_question_no_article env db sid q row hs hft]
      exact ⟨rfl, rfl, Or.inl rfl⟩
    | false =>
      cases hart : db.articles (row.article_title.getD []) row.language with
      | some cached =>
        rw [answer_question_hit env db sid q row cached hs hft hart]
        exact ⟨rfl, rfl, Or.inl rfl⟩
      | none =>
        cases hfetch : env.fetch_page_extract row.language
            (row.article_title.getD []) with
        | none =>
          rw [answer_question_notfound env db sid q row hs hft hart hfetch]
          exact ⟨rfl, rfl, Or.inl rfl⟩
        | some d =>
          rw [answer_question_miss_fetch env db sid q row d hs hft hart hfetch]
          exact ⟨rfl, rfl, Or.inr ⟨row, d, rfl, hart, hfetch, rfl⟩⟩

/-- Store with no sessions, no messages and an empty article cache, used
by the C5 counterexample. -/
def dbEmptyC5 : DBState :=
  { sessions := fun _ => none, messages := fun _ => [], articles := fun _ _ => none }

/-- Environment whose article source resolves every request to the title
"B" (as Wikipedia does when it normalises or redirects a title), used by
the C5 counterexample. -/
def envMismatchC5 : Env :=
  { fetch_page_extract := fun _ _ =>
      some ⟨some "B".toList, none, none, none, some "x".toList⟩,
    llm_available := false,
    llm_chat := fun _ => [],
    external_search := fun _ => [],
    now := [] }

/-- C5 (counterexample): when the article source returns the article
under a different (normalised) title than the one requested, the upsert
caches it under the returned title, the second call misses the cache
again, and two sequential calls issue two fetches — not one — with the
second call not being a cache hit. -/
theorem cache_idempotence_counterexample :
    (ensure_article_cached envMismatchC5 dbEmptyC5 "A".toList "en".toList).2.2 = 1 ∧
    (ensure_article_cached envMismatchC5
      (ensure_article_cached envMismatchC5 dbEmptyC5 "A".toList
        "en".toList).2.1 "A".toList "en".toList).2.2 = 1 := by
  constructor
  · rfl
  · rfl

/-- C5 (amended): provided the article is not initially cached, the
source fetch succeeds, and the source returns the article under the
requested title, two sequential `ensure_article_cached` calls issue
exactly one article-source fetch (the second call is a cache hit) and
both calls return identical chunk sequences. -/
theorem cache_idempotence_amended (env : Env) (db : DBState)
    (title language : Str) (d : FetchData)
    (hmiss : db.articles title language = none)
    (hfetch : env.fetch_page_extract language title = some d)
    (htitle : d.title.getD title = title) :
    (ensure_article_cached env db title language).2.2 = 1 ∧
    (ensure_article_cached env
      (ensure_article_cached env db title language).2.1 title language).2.2 = 0 ∧
    (ensure_article_cached env db title language).1 =
      .ok (title, d.url, split_into_chunks (d.extract.getD [])) ∧
    (ensure_article_cached env
        (ensure_article_cached env db title language).2.1 title language).1 =
      .ok (title, d.url, split_into_chunks (d.extract.getD [])) := by
  have h1 : ensure_article_cached env db title language =
      (.ok (title, d.url, split_into_chunks (d.extract.getD [])),
        upsert_article db title language d.pageid d.revision_id d.url
          (d.extract.getD []) env.now, 1) := by
    unfold ensure_article_cached
    rw [hmiss, hfetch]
    simp only [htitle]
  have h2 : (upsert_article db title language d.pageid d.revision_id d.url
      (d.extract.getD []) env.now).articles title language =
      some ⟨title, language, d.pageid, d.revision_id, d.url, env.now,
        d.extract.getD []⟩ := by
    unfold upsert_article
    simp
  refine ⟨by rw [h1], ?_, by rw [h1], ?_⟩
  · rw [h1]
    show (ensure_article_cached env (upsert_article db title language d.pageid
      d.revision_id d.url (d.extract.getD []) env.now) title language).2.2 = 0
    unfold ensure_article_cached
    rw [h2]
  · rw [h1]
    show (ensure_article_cached env (upsert_article db title language d.pageid
      d.revision_id d.url (d.extract.getD []) env.now) title language).1 = _
    unfold ensure_article_cached
    rw [h2]

/-- Witness for the amended C5: an empty cache and a source that returns
the requested title (title field absent, defaulted). -/
theorem cache_idempotence_amended_witness :
    (ensure_article_cached
      { fetch_page_extract := fun _ _ =>
          some ⟨none, none, none, none, some "hello world".toList⟩,
        llm_available := false, llm_chat := fun _ => [],
        external_search := fun _ => [], now := [] }
      { sessions := fun _ => none, messages := fun _ => [],
        articles := fun _ _ => none } "A".toList "en".toList).2.2 = 1 :=
  (cache_idempotence_amended
    { fetch_page_extract := fun _ _ =>
        some ⟨none, none, none, none, some "hello world".toList⟩,
      llm_available := false, llm_chat := fun _ => [],
      external_search := fun _ => [], now := [] }
    { sessions := fun _ => none, messages := fun _ => [],
      articles := fun _ _ => none } "A".toList "en".toList
    ⟨none, none, none, none, some "hello world".toList⟩ rfl rfl rfl).1

/-- C6: History reconstruction pairs each user message with the next
assistant message, a later user message overwrites an unconsumed pending
question, a user message still pending after the scan is appended with an
empty answer, and `[user:"Q1", assistant:"A1", user:"Q2"]` reconstructs to
`[("Q1","A1"), ("Q2","")]`. -/
theorem historyPairs_pairing :
    historyPairs [("user".toList, "Q1".toList), ("assistant".toList, "A1".toList),
        ("user".toList, "Q2".toList)] =
      [("Q1".toList, "A1".toList), ("Q2".toList, [])] ∧
    (∀ (p : Option Str) (u : Str) (rest : List (Str × Str)),
      pairsAux p (("user".toList, u) :: rest) = pairsAux (some u) rest) ∧
    (∀ (u a : Str) (rest : List (Str × Str)),
      pairsAux (some u) (("assistant".toList, a) :: rest) =
        (u, a) :: pairsAux none rest) ∧
    (∀ u : Str, pairsAux (some u) [] = [(u, [])]) := by
  refine ⟨by decide, fun p u rest => ?_, fun u a rest => ?_, fun u => rfl⟩
  · simp [pairsAux]
  · simp [pairsAux]

/-- The greedy packing loop emits only non-empty groups whose paragraph
lengths sum to at most 1200 unless the group is a single paragraph. -/
theorem packGroups_spec :
    ∀ (ps current : List Str) (clen : Nat),
      clen = (current.map List.length).sum →
      (current = [] ∨ current.length = 1 ∨ (current.map List.length).sum ≤ 1200) →
      ∀ g ∈ packGroups ps current clen,
        g ≠ [] ∧ (g.length = 1 ∨ (g.map List.length).sum ≤ 1200)
  | [], current, clen, _, hinv => by
    intro g hg
    unfold packGroups at hg
    by_cases h : current ≠ []
    · rw [if_pos h, List.mem_singleton] at hg
      subst hg
      rcases hinv with h1 | h1
      · exact absurd h1 h
      · exact ⟨h, h1⟩
    · rw [if_neg h] at hg
      cases hg
  | p :: ps, current, clen, hc, hinv => by
    intro g hg
    unfold packGroups at hg
    by_cases hcond : 1200 < clen + p.length ∧ current ≠ []
    · rw [if_pos hcond] at hg
      rcases List.mem_cons.mp hg with hg | hg
      · subst hg
        rcases hinv with h1 | h1
        · exact absurd h1 hcond.2
        · exact ⟨hcond.2, h1⟩
      · exact packGroups_spec ps [p] p.length (by simp) (Or.inr (Or.inl rfl)) g hg
    · rw [if_neg hcond] at hg
      refine packGroups_spec ps (current ++ [p]) (clen + p.length) ?_ ?_ g hg
      · rw [List.map_append, List.sum_append, ← hc]
        simp
      · by_cases hcur : current = []
        · subst hcur
          exact Or.inr (Or.inl (by simp))
        · have hle : clen + p.length ≤ 1200 := by
            rcases not_and_or.mp hcond with h | h
            · omega
            · exact absurd hcur (by simpa using h)
          refine Or.inr (Or.inr ?_)
          rw [List.map_append, List.sum_append]
          simp only [List.map_cons, List.map_nil, List.sum_cons, List.sum_nil]
          omega

/-- Every paragraph inside an emitted group comes from the loop's
pending group or from the remaining paragraph list. -/
theorem packGroups_mem :
    ∀ (ps current : List Str) (clen : Nat) (P : Str → Prop),
      (∀ x ∈ current, P x) → (∀ x ∈ ps, P x) →
      ∀ g ∈ packGroups ps current clen, ∀ x ∈ g, P x
  | [], current, clen, P, hcur, _ => by
    intro g hg
    unfold packGroups at hg
    by_cases h : current ≠ []
    · rw [if_pos h, List.mem_singleton] at hg
      subst hg
      exact hcur
    · rw [if_neg h] at hg
      cases hg
  | p :: ps, current, clen, P, hcur, hps => by
    intro g hg
    unfold packGroups at hg
    by_cases hcond : 1200 < clen + p.length ∧ current ≠ []
    · rw [if_pos hcond] at hg
      rcases List.mem_cons.mp hg with hg | hg
      · subst hg
        exact hcur
      · exact packGroups_mem ps [p] p.length P
          (by simpa using hps p (by simp))
          (fun x hx => hps x (List.mem_cons_of_mem p hx)) g hg
    · rw [if_neg hcond] at hg
      refine packGroups_mem ps (current ++ [p]) (clen + p.length) P ?_
        (fun x hx => hps x (List.mem_cons_of_mem p hx)) g hg
      intro x hx
      rcases List.mem_append.mp hx with hx | hx
      · exact hcur x hx
      · rw [List.mem_singleton] at hx
        subst hx
        exact hps x (by simp)

/-- The packing loop emits at least one group when it has any input. -/
theorem packGroups_ne_nil :
    ∀ (ps current : List Str) (clen : Nat), ps ≠ [] ∨ current ≠ [] →
      packGroups ps current clen ≠ []
  | [], current, clen, h => by
    unfold packGroups
    rcases h with h | h
    · exact absurd rfl h
    · rw [if_pos h]
      simp
  | p :: ps, current, clen, _ => by
    unfold packGroups
    by_cases hcond : 1200 < clen + p.length ∧ current ≠ []
    · rw [if_pos hcond]
      simp
    · rw [if_neg hcond]
      exact packGroups_ne_nil ps (current ++ [p]) (clen + p.length)
        (Or.inr (by simp))

/-- The literal packing loop renders exactly the instrumented groups. -/
theorem packLoop_eq_map (ch : Chunk) :
    ∀ (ps current : List Str) (clen : Nat),
      packLoop ch ps current clen =
        (packGroups ps current clen).map (fun g =>
          ⟨ch.sectionName, joinSep ['\n', '\n'] g, ch.start_line, ch.end_line⟩)
  | [], current, clen => by
    unfold packLoop packGroups
    by_cases h : current ≠ []
    · rw [if_pos h, if_pos h]
      rfl
    · rw [if_neg h, if_neg h]
      rfl
  | p :: ps, current, clen => by
    unfold packLoop packGroups
    by_cases hcond : 1200 < clen + p.length ∧ current ≠ []
    · rw [if_pos hcond, if_pos hcond, packLoop_eq_map ch ps [p] p.length]
      rfl
    · rw [if_neg hcond, if_neg hcond,
        packLoop_eq_map ch ps (current ++ [p]) (clen + p.length)]

/-- Every chunk added by `flushChunk` beyond the accumulator has a
non-empty stripped text. -/
theorem flushChunk_spec (sec : Str) (buf : List Str) (s e : Int)
    (chunks0 : List Chunk) :
    ∀ ch ∈ flushChunk sec buf s e chunks0,
      ch ∈ chunks0 ∨ (ch.text ≠ [] ∧ ∃ j, ch.text = pyStrip j) := by
  intro ch hch
  unfold flushChunk at hch
  by_cases h1 : buf ≠ []
  · rw [if_pos h1] at hch
    by_cases h2 : pyStrip (joinSep ['\n'] buf) ≠ []
    · rw [if_pos h2] at hch
      rcases List.mem_append.mp hch with hch | hch
      · exact Or.inl hch
      · rw [List.mem_singleton] at hch
        subst hch
        exact Or.inr ⟨h2, joinSep ['\n'] buf, rfl⟩
    · rw [if_neg h2] at hch
      exact Or.inl hch
  · rw [if_neg h1] at hch
    exact Or.inl hch

/-- Every provisional chunk produced by the first pass has a non-empty
stripped text. -/
theorem splitPass1_spec :
    ∀ (lines : List Str) (i : Nat) (sec : Str) (buf : List Str) (s : Int)
      (chunks0 : List Chunk),
      (∀ ch ∈ chunks0, ch.text ≠ [] ∧ ∃ j, ch.text = pyStrip j) →
      ∀ ch ∈ splitPass1 i lines sec buf s chunks0,
        ch.text ≠ [] ∧ ∃ j, ch.text = pyStrip j
  | [], i, sec, buf, s, chunks0, h0 => by
    intro ch hch
    unfold splitPass1 at hch
    rcases flushChunk_spec sec buf s ((i : Int) - 1) chunks0 ch hch with h | h
    · exact h0 ch h
    · exact h
  | line :: rest, i, sec, buf, s, chunks0, h0 => by
    intro ch hch
    unfold splitPass1 at hch
    cases hm : headingMatch line with
    | some g =>
      rw [hm] at hch
      refine splitPass1_spec rest (i + 1) _ [] _ _ ?_ ch hch
      intro ch' hch'
      rcases flushChunk_spec sec buf s ((i : Int) - 1) chunks0 ch' hch' with h | h
      · exact h0 ch' h
      · exact h
    | none =>
      rw [hm] at hch
      exact splitPass1_spec rest (i + 1) sec (buf ++ [line]) s chunks0 h0 ch hch

/-- Every paragraph of a provisional chunk is non-empty, free of blank
lines, and does not end in a newline. -/
theorem chunkParas_spec (ch : Chunk) :
    ∀ p ∈ chunkParas ch, p ≠ [] ∧ noNlNl p ∧ p.getLast? ≠ some '\n' := by
  intro p hp
  unfold chunkParas at hp
  have hp2 := List.of_mem_filter hp
  have hp1 := List.mem_of_mem_filter hp
  obtain ⟨piece, hpiece, rfl⟩ := List.mem_map.mp hp1
  have hne : pyStrip piece ≠ [] := by simpa using hp2
  have hnn : noNlNl piece :=
    splitNlNlAux_pieces ch.text [] List.chain'_nil (by simp) piece hpiece
  refine ⟨hne, noNlNl_pyStrip hnn, ?_⟩
  intro hlast
  have := pyStrip_getLast piece hlast
  simp [isPySpace] at this

/-- A provisional chunk with non-empty stripped text has at least one
paragraph. -/
theorem chunkParas_ne_nil (ch : Chunk) (h1 : ch.text ≠ [])
    (h2 : ∃ j, ch.text = pyStrip j) : chunkParas ch ≠ [] := by
  obtain ⟨j, hj⟩ := h2
  have hne : pyStrip j ≠ [] := hj ▸ h1
  obtain ⟨c, hc, hcs⟩ := pyStrip_head j hne
  have hhead : ch.text.head? = some c := by rw [hj]; exact hc
  have hcnl : c ≠ '\n' := by
    intro h
    subst h
    simp [isPySpace] at hcs
  obtain ⟨piece, rest, hsplit, hcmem⟩ := pySplitNlNl_first_mem ch.text c hhead hcnl
  have hpmem : pyStrip piece ∈ chunkParas ch := by
    unfold chunkParas
    refine List.mem_filter.mpr ⟨List.mem_map_of_mem pyStrip ?_, ?_⟩
    · rw [hsplit]
      exact List.mem_cons_self piece rest
    · simpa using pyStrip_ne_nil_of_mem hcmem hcs
  exact List.ne_nil_of_mem hpmem

/-- C3 (amended): an emitted chunk of more than one paragraph keeps the
total paragraph length at or below the 1200 cap; its full character
length can exceed 1200 only by the two characters of each blank-line
separator inserted between paragraphs, so it is bounded by
`1198 + 2 * (number of paragraphs)`.  A single-paragraph chunk is
unbounded, as the claim already allows. -/
theorem split_cap_amended (text : Str) :
    ∀ ch ∈ split_into_chunks text, 2 ≤ (pySplitNlNl ch.text).length →
      ch.text.length ≤ 1198 + 2 * (pySplitNlNl ch.text).length := by
  intro ch hch hparas
  unfold split_into_chunks at hch
  by_cases hfin : ((splitPass1 0 (pySplitlines text) introductionSection [] 0
      []).map packSection).flatten = []
  · rw [if_pos hfin] at hch
    have hspec := splitPass1_spec (pySplitlines text) 0 introductionSection []
      0 [] (by intro ch' h; cases h) ch hch
    have hpne : packSection ch ≠ [] := by
      unfold packSection
      rw [packLoop_eq_map]
      intro hmap
      apply packGroups_ne_nil (chunkParas ch) [] 0
        (Or.inl (chunkParas_ne_nil ch hspec.1 hspec.2))
      simpa using hmap
    have hpe : packSection ch = [] :=
      List.flatten_eq_nil_iff.mp hfin _ (List.mem_map_of_mem packSection hch)
    exact absurd hpe hpne
  · rw [if_neg hfin] at hch
    obtain ⟨l, hl, hchl⟩ := List.mem_flatten.mp hch
    obtain ⟨ch1, hch1, rfl⟩ := List.mem_map.mp hl
    unfold packSection at hchl
    rw [packLoop_eq_map] at hchl
    obtain ⟨G, hG, hchG⟩ := List.mem_map.mp hchl
    have hGspec := packGroups_spec (chunkParas ch1) [] 0 (by simp) (Or.inl rfl)
      G hG
    have hGmem := packGroups_mem (chunkParas ch1) [] 0
      (fun p => p ≠ [] ∧ noNlNl p ∧ p.getLast? ≠ some '\n')
      (by intro x hx; cases hx) (chunkParas_spec ch1) G hG
    have htext : ch.text = joinSep ['\n', '\n'] G := by rw [← hchG]
    have hrt : pySplitNlNl ch.text = G := by
      rw [htext]
      exact pySplitNlNl_joinSep G hGspec.1
        (fun g hg => ⟨(hGmem g hg).2.1, (hGmem g hg).2.2⟩)
    rw [hrt] at hparas
    rw [hrt]
    have hlen : ch.text.length = (G.map List.length).sum + 2 * (G.length - 1) := by
      rw [htext, joinSep_length ['\n', '\n'] G hGspec.1]
      rfl
    rcases hGspec.2 with h1 | h1
    · omega
    · omega

set_option maxRecDepth 200000 in
/-- C3 (counterexample): two paragraphs of 600 characters each are packed
into a single chunk whose text is 1202 characters long — over the 1200
cap even though the chunk does not consist of a single paragraph. -/
theorem split_cap_counterexample :
    ∃ ch ∈ split_into_chunks
        (List.replicate 600 'a' ++ '\n' :: '\n' :: List.replicate 600 'b'),
      1200 < ch.text.length ∧ (pySplitNlNl ch.text).length = 2 := by
  decide

/-- Witness for the amended C3 on the two-paragraph text `"ab\n\ncd"`. -/
theorem split_cap_amended_witness :
    (Chunk.mk introductionSection "ab\n\ncd".toList 0 2).text.length ≤
      1198 + 2 * (pySplitNlNl (Chunk.mk introductionSection "ab\n\ncd".toList
        0 2).text).length :=
  split_cap_amended "ab\n\ncd".toList
    (Chunk.mk introductionSection "ab\n\ncd".toList 0 2) (by decide) (by decide)

/-- Unfolding of `score_chunk` for an empty history. -/
lemma score_chunk_nohist (q : Str) (ch : Chunk) :
    score_chunk q [] ch =
      if (simple_tokenize q).dedup = [] then 0
      else if simple_tokenize ch.text = [] then 0
      else
        (((simple_tokenize q).dedup.map
            (fun t => ((simple_tokenize ch.text).count t : ℝ))).sum) /
            (1 + Real.sqrt ((simple_tokenize ch.text).length : ℝ)) +
          (((simple_tokenize q).dedup.filter
              (fun t => t ∈ simple_tokenize ch.sectionName)).length : ℝ) * (1 / 2) := by
  simp [score_chunk]

/-- A query sharing no token with a chunk's body nor its section name
scores exactly zero against that chunk (with empty history). -/
lemma score_chunk_eq_zero (q : Str) (ch : Chunk)
    (h : ∀ t ∈ simple_tokenize q,
      t ∉ simple_tokenize ch.text ∧ t ∉ simple_tokenize ch.sectionName) :
    score_chunk q [] ch = 0 := by
  rw [score_chunk_nohist]
  by_cases h1 : (simple_tokenize q).dedup = []
  · simp [h1]
  · rw [if_neg h1]
    by_cases h2 : simple_tokenize ch.text = []
    · simp [h2]
    · rw [if_neg h2]
      have hsum : (((simple_tokenize q).dedup.map
          (fun t => ((simple_tokenize ch.text).count t : ℝ))).sum) = 0 := by
        apply List.sum_eq_zero
        intro x hx
        obtain ⟨t, ht, rfl⟩ := List.mem_map.mp hx
        have : t ∉ simple_tokenize ch.text := (h t (List.mem_dedup.mp ht)).1
        simp [List.count_eq_zero.mpr this]
      have hfil : ((simple_tokenize q).dedup.filter
          (fun t => t ∈ simple_tokenize ch.sectionName)) = [] := by
        apply List.filter_eq_nil_iff.mpr
        intro t ht
        simpa using (h t (List.mem_dedup.mp ht)).2
      rw [hsum, hfil]
      simp

/-- A query with at least one token occurring in the chunk's body scores
strictly positively against that chunk (with empty history). -/
lemma score_chunk_pos (q : Str) (ch : Chunk)
    (hq : ∃ t ∈ simple_tokenize q, t ∈ simple_tokenize ch.text) :
    0 < score_chunk q [] ch := by
  obtain ⟨t0, ht0q, ht0c⟩ := hq
  rw [score_chunk_nohist]
  have h1 : (simple_tokenize q).dedup ≠ [] :=
    List.ne_nil_of_mem (List.mem_dedup.mpr ht0q)
  have h2 : simple_tokenize ch.text ≠ [] := List.ne_nil_of_mem ht0c
  rw [if_neg h1, if_neg h2]
  have hsum : (1 : ℝ) ≤ (((simple_tokenize q).dedup.map
      (fun t => ((simple_tokenize ch.text).count t : ℝ))).sum) := by
    have hmem : ((simple_tokenize ch.text).count t0 : ℝ) ∈
        (simple_tokenize q).dedup.map
          (fun t => ((simple_tokenize ch.text).count t : ℝ)) :=
      List.mem_map_of_mem _ (List.mem_dedup.mpr ht0q)
    have hle : (1 : ℝ) ≤ ((simple_tokenize ch.text).count t0 : ℝ) := by
      exact_mod_cast Nat.one_le_iff_ne_zero.mpr
        (Nat.pos_iff_ne_zero.mp (List.count_pos_iff.mpr ht0c))
    refine le_trans hle (List.single_le_sum (fun x hx => ?_) _ hmem)
    obtain ⟨t, _, rfl⟩ := List.mem_map.mp hx
    positivity
  have hden : (0 : ℝ) < 1 + Real.sqrt ((simple_tokenize ch.text).length : ℝ) := by
    positivity
  have hdiv : (0 : ℝ) < (((simple_tokenize q).dedup.map
      (fun t => ((simple_tokenize ch.text).count t : ℝ))).sum) /
      (1 + Real.sqrt ((simple_tokenize ch.text).length : ℝ)) :=
    div_pos (lt_of_lt_of_le one_pos hsum) hden
  have hbonus : (0 : ℝ) ≤ (((simple_tokenize q).dedup.filter
      (fun t => t ∈ simple_tokenize ch.sectionName)).length : ℝ) * (1 / 2) := by
    positivity
  linarith

/-- C8: For a chunk containing at least one token of the query in its
body, the score against that query (empty history) is strictly greater
than the score against any unrelated query sharing no tokens with the
chunk (neither with its body nor with its section name, both of which
`score_chunk` consults). -/
theorem score_chunk_strict_monotone (q u : Str) (ch : Chunk)
    (hq : ∃ t ∈ simple_tokenize q, t ∈ simple_tokenize ch.text)
    (hu : ∀ t ∈ simple_tokenize u,
      t ∉ simple_tokenize ch.text ∧ t ∉ simple_tokenize ch.sectionName) :
    score_chunk u [] ch < score_chunk q [] ch := by
  rw [score_chunk_eq_zero u ch hu]
  exact score_chunk_pos q ch hq

/-- Witness for C8 at the query "cat", the unrelated query "dog", and a
concrete chunk containing "cat". -/
theorem score_chunk_strict_monotone_witness :
    score_chunk "dog".toList [] ⟨"Intro".toList, "the cat sat".toList, 0, 0⟩ <
      score_chunk "cat".toList [] ⟨"Intro".toList, "the cat sat".toList, 0, 0⟩ :=
  score_chunk_strict_monotone "cat".toList "dog".toList
    ⟨"Intro".toList, "the cat sat".toList, 0, 0⟩ (by decide) (by decide)

/-- Every pair produced by the scoring map carries the score of its own
chunk, and its chunk is one of the input chunks. -/
lemma mem_scored_spec {chunks : List Chunk} {q : Str} {h : List Str}
    {p : ℝ × Chunk}
    (hp : p ∈ chunks.map (fun ch => (score_chunk q h ch, ch))) :
    p.1 = score_chunk q h p.2 ∧ p.2 ∈ chunks := by
  obtain ⟨ch, hch, rfl⟩ := List.mem_map.mp hp
  exact ⟨rfl, hch⟩

/-- The retriever returns nothing when no chunk scores above zero. -/
lemma retrieve_top_k_eq_nil (chunks : List Chunk) (q : Str) (h : List Str)
    (k : Nat) (hall : ∀ ch ∈ chunks, score_chunk q h ch ≤ 0) :
    retrieve_top_k chunks q h k = [] := by
  have hres : retrieve_top_k chunks q h k =
      (((List.insertionSort rankRel
        (chunks.map (fun ch => (score_chunk q h ch, ch)))).take k).filter
        (fun p => 0 < p.1)).map (fun p => p.2) := rfl
  rw [hres]
  have hnil : ((List.insertionSort rankRel
      (chunks.map (fun ch => (score_chunk q h ch, ch)))).take k).filter
      (fun p => 0 < p.1) = [] := by
    apply List.filter_eq_nil_iff.mpr
    intro p hp
    have hp2 : p ∈ List.insertionSort rankRel
        (chunks.map (fun ch => (score_chunk q h ch, ch))) :=
      (List.take_sublist k _).subset hp
    have hp3 := mem_scored_spec
      ((List.perm_insertionSort rankRel _).subset hp2)
    simp only [decide_eq_true_eq]
    rw [hp3.1]
    exact not_lt.mpr (hall p.2 hp3.2)
  rw [hnil]
  rfl

/-- The retriever keeps a single positively-scored chunk. -/
lemma retrieve_top_k_singleton_pos (ch : Chunk) (q : Str) (h : List Str)
    (k : Nat) (hk : 1 ≤ k) (hpos : 0 < score_chunk q h ch) :
    retrieve_top_k [ch] q h k = [ch] := by
  have hres : retrieve_top_k [ch] q h k =
      (((List.insertionSort rankRel [(score_chunk q h ch, ch)]).take k).filter
        (fun p => 0 < p.1)).map (fun p => p.2) := rfl
  rw [hres]
  have hsort : List.insertionSort rankRel [(score_chunk q h ch, ch)] =
      [(score_chunk q h ch, ch)] := rfl
  rw [hsort, List.take_of_length_le (by simpa using hk), List.filter_cons]
  rw [decide_eq_true hpos]
  rfl

/-- The stable descending sort keeps the elements of any fixed score in
their original relative order: filtering the sorted list to one score
value reproduces the corresponding filter of the input. -/
lemma insertionSort_filter_fst (l : List (ℝ × Chunk)) (s : ℝ) :
    (List.insertionSort rankRel l).filter (fun p => p.1 = s) =
      l.filter (fun p => p.1 = s) := by
  have hperm : List.Perm ((List.insertionSort rankRel l).filter (fun p => p.1 = s))
      (l.filter (fun p => p.1 = s)) :=
    (List.perm_insertionSort rankRel l).filter _
  have hpair : (l.filter (fun p => p.1 = s)).Pairwise rankRel := by
    apply List.pairwise_of_forall_mem_list
    intro a ha b hb
    have ha' : a.1 = s := by simpa using List.of_mem_filter ha
    have hb' : b.1 = s := by simpa using List.of_mem_filter hb
    unfold rankRel
    rw [ha', hb']
  have hsub : (l.filter (fun p => p.1 = s)).Sublist
      (List.insertionSort rankRel l) :=
    List.sublist_insertionSort hpair (List.filter_sublist l)
  have hsub2 : (l.filter (fun p => p.1 = s)).Sublist
      ((List.insertionSort rankRel l).filter (fun p => p.1 = s)) := by
    have h2 := hsub.filter (fun p => decide (p.1 = s))
    rw [List.filter_filter] at h2
    simpa only [Bool.and_self] using h2
  exact (hsub2.eq_of_length hperm.length_eq.symm).symm

/-- C4: `retrieve_top_k` returns only strictly positively scored chunks,
at most `k` of them, in descending score order with ties kept in the
original chunk order, and returns the empty sequence when no chunk
scores above zero. -/
theorem retrieve_top_k_contract (chunks : List Chunk) (query : Str)
    (history : List Str) (k : Nat) :
    (∀ ch ∈ retrieve_top_k chunks query history k,
      0 < score_chunk query history ch) ∧
    (retrieve_top_k chunks query history k).length ≤ k ∧
    ((retrieve_top_k chunks query history k).map
        (score_chunk query history)).Pairwise (fun a b => b ≤ a) ∧
    (∀ s : ℝ, ((retrieve_top_k chunks query history k).filter
        (fun ch => score_chunk query history ch = s)).Sublist
      (chunks.filter (fun ch => score_chunk query history ch = s))) ∧
    ((∀ ch ∈ chunks, score_chunk query history ch ≤ 0) →
      retrieve_top_k chunks query history k = []) := by
  set f : Chunk → ℝ × Chunk := fun ch => (score_chunk query history ch, ch) with hf
  set scored := chunks.map f with hscored
  set sorted := List.insertionSort rankRel scored with hsorted
  have hmem_sorted : ∀ p ∈ sorted, p.1 = score_chunk query history p.2 ∧
      p.2 ∈ chunks := fun p hp =>
    mem_scored_spec ((List.perm_insertionSort rankRel scored).subset hp)
  have hres : retrieve_top_k chunks query history k =
      ((sorted.take k).filter (fun p => 0 < p.1)).map (fun p => p.2) := rfl
  set l3 := (sorted.take k).filter (fun p => 0 < p.1) with hl3
  have hl3sub : l3.Sublist sorted :=
    (List.filter_sublist _).trans (List.take_sublist k sorted)
  have hl3mem : ∀ p ∈ l3, p.1 = score_chunk query history p.2 ∧
      p.2 ∈ chunks ∧ 0 < p.1 := by
    intro p hp
    have h1 := hmem_sorted p (hl3sub.subset hp)
    have hp2 : p ∈ (sorted.take k).filter (fun q => decide (0 < q.1)) := by
      rw [← hl3]
      exact hp
    have h2b := List.of_mem_filter hp2
    have h2 : 0 < p.1 := by simpa using h2b
    exact ⟨h1.1, h1.2, h2⟩
  refine ⟨?_, ?_, ?_, ?_, ?_⟩
  · intro ch hch
    rw [hres] at hch
    obtain ⟨p, hp, rfl⟩ := List.mem_map.mp hch
    obtain ⟨h1, _, h3⟩ := hl3mem p hp
    rwa [h1] at h3
  · rw [hres, List.length_map]
    exact le_trans (List.length_filter_le _ _) (List.length_take_le k sorted)
  · rw [hres]
    have hsorted_pw : sorted.Pairwise rankRel :=
      List.sorted_insertionSort rankRel scored
    have hl3pw : l3.Pairwise rankRel := hsorted_pw.sublist hl3sub
    have : l3.Pairwise (fun a b =>
        score_chunk query history b.2 ≤ score_chunk query history a.2) := by
      refine List.Pairwise.imp_of_mem ?_ hl3pw
      intro a b ha hb hr
      have h1 := (hl3mem a ha).1
      have h2 := (hl3mem b hb).1
      unfold rankRel at hr
      rwa [h1, h2] at hr
    rw [List.map_map]
    exact List.pairwise_map.mpr this
  · intro s
    rw [hres]
    have e1 : (((sorted.take k).filter (fun p => 0 < p.1)).map
          (fun p => p.2)).filter
          (fun ch => score_chunk query history ch = s) =
        (((sorted.take k).filter (fun p => 0 < p.1)).filter
          (fun p => score_chunk query history p.2 = s)).map (fun p => p.2) := by
      rw [List.filter_map]
      rfl
    rw [e1]
    have e2 : (((sorted.take k).filter (fun p => 0 < p.1)).filter
          (fun p => score_chunk query history p.2 = s)) =
        (((sorted.take k).filter (fun p => 0 < p.1)).filter
          (fun p => p.1 = s)) := by
      apply List.filter_congr
      intro p hp
      rw [(hl3mem p hp).1]
    rw [e2]
    have h4 : (((sorted.take k).filter (fun p => 0 < p.1)).filter
        (fun p => p.1 = s)).Sublist (sorted.filter (fun p => p.1 = s)) := by
      refine List.Sublist.trans ?_ ((List.take_sublist k sorted).filter _)
      exact (List.filter_sublist _).filter _
    have h5 : sorted.filter (fun p => p.1 = s) =
        scored.filter (fun p => p.1 = s) := insertionSort_filter_fst scored s
    have h6 : scored.filter (fun p => p.1 = s) =
        (chunks.filter (fun ch => score_chunk query history ch = s)).map f := by
      rw [hscored, List.filter_map]
      rfl
    have h7 : ((((sorted.take k).filter (fun p => 0 < p.1)).filter
        (fun p => p.1 = s)).map (fun p => p.2)).Sublist
        (((chunks.filter (fun ch => score_chunk query history ch = s)).map f).map
          (fun p => p.2)) := by
      refine List.Sublist.map _ ?_
      rw [← h6, ← h5]
      exact h4
    rwa [List.map_map, show ((fun p : ℝ × Chunk => p.2) ∘ f) = id from rfl,
      List.map_id] at h7
  · exact retrieve_top_k_eq_nil chunks query history k

/-- Witness for C4 at the empty chunk list, where the no-positive-score
hypothesis of the last conjunct holds vacuously. -/
theorem retrieve_top_k_contract_witness :
    retrieve_top_k [] [] [] 5 = [] :=
  (retrieve_top_k_contract [] [] [] 5).2.2.2.2 (by simp)

/-- C10: An assistant message arriving with no pending user question, for
example at the start of the list or as a second consecutive assistant
message, is skipped entirely: it produces no pair and leaves the pairs of
the rest of the list unchanged. -/
theorem historyPairs_orphan_assistant_skipped :
    (∀ (a : Str) (rest : List (Str × Str)),
      pairsAux none (("assistant".toList, a) :: rest) = pairsAux none rest) ∧
    historyPairs [("assistant".toList, "A0".toList)] = [] ∧
    (∀ (u a1 a2 : Str) (rest : List (Str × Str)),
      pairsAux none (("user".toList, u) :: ("assistant".toList, a1) ::
          ("assistant".toList, a2) :: rest) =
        (u, a1) :: pairsAux none rest) := by
  refine ⟨fun a rest => ?_, by decide, fun u a1 a2 rest => ?_⟩
  · simp [pairsAux]
  · simp [pairsAux]

/-- Session row selecting article "T" in English, used by the C1
scenario. -/
def rowC1 : SessionRow :=
  ⟨1, "s".toList, [], "en".toList, some "T".toList, none⟩

/-- Cached article "T" whose text shares no token with the nonsense query
"zzqqxx123", used by the C1 scenario. -/
def artC1 : ArticleRow :=
  ⟨"T".toList, "en".toList, none, none, some "http://w".toList, [],
    "The sky is blue.".toList⟩

/-- Store for the C1 scenario: one session with article "T" cached. -/
def dbC1 : DBState :=
  { sessions := fun _ => some rowC1, messages := fun _ => [],
    articles := fun _ _ => some artC1 }

/-- Environment for the C1 scenario: model unconfigured, external search
returning one result. -/
def envC1 : Env :=
  { fetch_page_extract := fun _ _ => none, llm_available := false,
    llm_chat := fun _ => [],
    external_search := fun _ =>
      [("Result".toList, "http://example.com".toList)],
    now := [] }

set_option maxRecDepth 40000 in
/-- C1: With the model unconfigured and a nonsense query sharing no
tokens with the article, the retriever returns nothing, the engine emits
the "nothing relevant found" message — and then the external-search
fallback does NOT fire, even though the external search would have
returned a result: the condition on line 100 of `orchestrator.py`
requires the answer to be blank, but the extractive fallback always
produces a non-blank message.  The final answer stays the "nothing
relevant found" message and the citation record has no `external` key,
contradicting the claimed behaviour (and the code's own comment, which
says the search runs when there are no relevant chunks OR the answer is
empty). -/
theorem fallback_chain_no_external :
    (answer_question envC1 dbC1 1 "zzqqxx123".toList).1 =
      .ok (nothingRelevantAnswer,
        ⟨⟨"T".toList, some "http://w".toList⟩, [], none⟩) ∧
    (answer_question envC1 dbC1 1 "zzqqxx123".toList).2 = dbC1 ∧
    envC1.external_search "zzqqxx123".toList =
      [("Result".toList, "http://example.com".toList)] := by
  have hsc : score_chunk "zzqqxx123".toList []
      ⟨introductionSection, "The sky is blue.".toList, 0, 0⟩ = 0 :=
    score_chunk_eq_zero _ _ (by decide)
  have hsplit : split_into_chunks "The sky is blue.".toList =
      [⟨introductionSection, "The sky is blue.".toList, 0, 0⟩] := by decide
  have hret : retrieve_top_k (split_into_chunks "The sky is blue.".toList)
      "zzqqxx123".toList [] 5 = [] := by
    rw [hsplit]
    apply retrieve_top_k_eq_nil
    intro ch hch
    rw [List.mem_singleton] at hch
    subst hch
    exact le_of_eq hsc
  rw [answer_question_hit envC1 dbC1 1 "zzqqxx123".toList rowC1 artC1 rfl
    (by decide) rfl]
  refine ⟨?_, rfl, rfl⟩
  show Except.ok (answerCore envC1 "zzqqxx123".toList []
      (retrieve_top_k (split_into_chunks "The sky is blue.".toList)
        "zzqqxx123".toList [] 5) "T".toList (some "http://w".toList)) = _
  rw [hret]
  exact congrArg Except.ok (by decide)

/-- Evaluation of the answer assembly when the model is configured but
its answer strips to blank: the extractive block is skipped (it requires
the model to be unavailable), the chunks are discarded, and the outcome
is decided by the external search alone. -/
lemma answerCore_blank_chat (env : Env) (q : Str) (hp : List (Str × Str))
    (tc : List Chunk) (t : Str) (u : Option Str)
    (hav : env.llm_available = true)
    (hblank : pyStrip (env.llm_chat (build_messages q hp tc t u)) = []) :
    answerCore env q hp tc t u =
      if env.external_search q = [] then
        (env.llm_chat (build_messages q hp tc t u),
          ⟨⟨t, u⟩, tc.map (fun ch => ch.sectionName), none⟩)
      else
        (renderExternalLinks ((env.external_search q).take 5),
          ⟨⟨t, u⟩, tc.map (fun ch => ch.sectionName), some true⟩) := by
  by_cases hres : env.external_search q = []
  · rw [if_pos hres]
    simp [answerCore, hav, hblank, hres]
  · rw [if_neg hres]
    simp [answerCore, hav, hblank, hres]

/-- Session row selecting article "T", used by the C2 scenario. -/
def rowC2 : SessionRow :=
  ⟨1, "s".toList, [], "en".toList, some "T".toList, none⟩

/-- Cached article whose text matches the query "cats", used by the C2
scenario. -/
def artC2 : ArticleRow :=
  ⟨"T".toList, "en".toList, none, none, some "http://w".toList, [],
    "Cats purr.".toList⟩

/-- Store for the C2 scenario: one session with article "T" cached. -/
def dbC2 : DBState :=
  { sessions := fun _ => some rowC2, messages := fun _ => [],
    articles := fun _ _ => some artC2 }

/-- Environment for the C2 scenario: model configured but returning an
empty answer, external search returning nothing. -/
def envC2 : Env :=
  { fetch_page_extract := fun _ _ => none, llm_available := true,
    llm_chat := fun _ => [], external_search := fun _ => [], now := [] }

set_option maxRecDepth 40000 in
/-- C2 (counterexample): the model is configured, the query "cats"
retrieves a chunk, and the model returns an empty answer — yet the
extractive-snippet fallback does not activate (it is guarded by the
model being unavailable): with no external results the final answer is
the empty model response, which is neither a labelled snippet block nor
the non-empty "nothing relevant found" message. -/
theorem empty_answer_no_extractive_counterexample :
    (answer_question envC2 dbC2 1 "cats".toList).1 =
      .ok ([], ⟨⟨"T".toList, some "http://w".toList⟩,
        [introductionSection], none⟩) ∧
    nothingRelevantAnswer ≠ [] := by
  have hpos : 0 < score_chunk "cats".toList []
      ⟨introductionSection, "Cats purr.".toList, 0, 0⟩ :=
    score_chunk_pos _ _ (by decide)
  have hsplit : split_into_chunks "Cats purr.".toList =
      [⟨introductionSection, "Cats purr.".toList, 0, 0⟩] := by decide
  have hret : retrieve_top_k (split_into_chunks "Cats purr.".toList)
      "cats".toList [] 5 =
      [⟨introductionSection, "Cats purr.".toList, 0, 0⟩] := by
    rw [hsplit]
    exact retrieve_top_k_singleton_pos _ _ _ 5 (by omega) hpos
  rw [answer_question_hit envC2 dbC2 1 "cats".toList rowC2 artC2 rfl
    (by decide) rfl]
  refine ⟨?_, by decide⟩
  show Except.ok (answerCore envC2 "cats".toList []
      (retrieve_top_k (split_into_chunks "Cats purr.".toList)
        "cats".toList [] 5) "T".toList (some "http://w".toList)) = _
  rw [hret]
  exact congrArg Except.ok (by decide)

/-- C2 (amended): when the model is configured but its chat call returns
a blank answer (on a valid session with a cached article), the retrieved
chunks are discarded, no exception is raised and the store is unchanged;
the extractive-snippet fallback does not activate — instead the
external-search fallback becomes eligible: if it yields nothing the
answer is the blank model response with no external citation key, and if
it yields results the answer is the bulleted link list with
`external = true`. -/
theorem empty_answer_amended (env : Env) (db : DBState) (sid : Int)
    (q : Str) (row : SessionRow) (cached : ArticleRow)
    (hav : env.llm_available = true)
    (hs : db.sessions sid = some row)
    (hf : pyFalsy row.article_title = false)
    (hart : db.articles (row.article_title.getD []) row.language = some cached)
    (hblank : ∀ ms, pyStrip (env.llm_chat ms) = []) :
    (answer_question env db sid q).2 = db ∧
    ∃ a c, (answer_question env db sid q).1 = .ok (a, c) ∧
      (env.external_search q = [] → pyStrip a = [] ∧ c.external = none) ∧
      (env.external_search q ≠ [] →
        a = renderExternalLinks ((env.external_search q).take 5) ∧
        c.external = some true) := by
  rw [answer_question_hit env db sid q row cached hs hf hart]
  rw [answerCore_blank_chat env q _ _ _ _ hav (hblank _)]
  refine ⟨rfl, ?_⟩
  by_cases hres : env.external_search q = []
  · rw [if_pos hres]
    exact ⟨_, _, rfl, fun _ => ⟨hblank _, rfl⟩, fun hne => absurd hres hne⟩
  · rw [if_neg hres]
    exact ⟨_, _, rfl, fun h => absurd h hres, fun _ => ⟨rfl, rfl⟩⟩

/-- Witness for the amended C2 at the concrete C2 scenario. -/
theorem empty_answer_amended_witness :
    (answer_question envC2 dbC2 1 "cats".toList).2 = dbC2 :=
  (empty_answer_amended envC2 dbC2 1 "cats".toList rowC2 artC2 rfl rfl
    (by decide) rfl (fun _ => rfl)).1

end WikiTalk
